import Mathlib

/-!
Shallow embedding of the AlKanzar rendering engine's host-side decision logic:
capability detection (`RenderEngine::detectLightingCapabilities`), mesh upload
(`MeshBuffer::upload`), the shadow registration state machine (`ShadowSystem`),
the tiled light-culling compute shaders, and the cascaded-shadow split math.
Floating-point quantities are modelled as exact rationals where the source math
is rational-closed, and as real numbers where it uses `pow`/`sqrt`.
-/

namespace AlKanzar

/-- Rendering strategy, `RendererPath` in RenderEngine.hpp: chosen once per
context, one of the three mutually exclusive tiers. -/
inductive RendererPath
  | SimpleForward
  | Deferred41
  | TiledCompute
deriving DecidableEq

/-- Severity of one spdlog log line emitted by the host code. -/
inductive LogLevel
  | info
  | warn
  | error
deriving DecidableEq

/-- Embedding of `RenderEngine::detectLightingCapabilities` from the
compute-capable engine iteration (src/unnamed/part_004, lines 350-377).
`supportsCompute` requires both dynamically loaded entry points
(`glDispatchCompute`, `glMemoryBarrier`) and context version >= 4.3; the
deferred tier requires version >= 4.1; otherwise the simple forward tier.
The returned list records the spdlog lines the branch emits, in order. -/
def detectLightingCapabilitiesTiled (major minor : Int)
    (hasDispatchCompute hasMemoryBarrier : Bool) : RendererPath × List LogLevel :=
  if hasDispatchCompute = true ∧ hasMemoryBarrier = true ∧
      (4 < major ∨ (major = 4 ∧ 3 ≤ minor)) then
    (RendererPath.TiledCompute, [LogLevel.info])
  else if 4 < major ∨ (major = 4 ∧ 1 ≤ minor) then
    (RendererPath.Deferred41, [LogLevel.warn, LogLevel.info])
  else
    (RendererPath.SimpleForward, [LogLevel.warn])

/-- Embedding of `RenderEngine::detectLightingCapabilities` from the deferred
engine iteration (src/src/render/RenderEngine.cpp, lines 348-361), which has no
compute tier: version >= 4.1 selects the deferred path with one info line,
otherwise the simple forward path with one warn line. -/
def detectLightingCapabilitiesDeferred (major minor : Int) :
    RendererPath × List LogLevel :=
  if 4 < major ∨ (major = 4 ∧ 1 ≤ minor) then
    (RendererPath.Deferred41, [LogLevel.info])
  else
    (RendererPath.SimpleForward, [LogLevel.warn])

/-- Reference definition transcribed from the spec's words (section 4.1):
evaluate compute support first (both entry points present and version >= 4.3
selects TiledCompute), otherwise the deferred-shading minimum version (>= 4.1),
otherwise fall back to the simplest forward path.  Stated separately so the
code's path selection can be proved to refine it. -/
def specPathSelection (major minor : Int)
    (hasDispatchCompute hasMemoryBarrier : Bool) : RendererPath :=
  if hasDispatchCompute = true ∧ hasMemoryBarrier = true ∧
      (4 < major ∨ (major = 4 ∧ 3 ≤ minor)) then
    RendererPath.TiledCompute
  else if 4 < major ∨ (major = 4 ∧ 1 ≤ minor) then
    RendererPath.Deferred41
  else
    RendererPath.SimpleForward

/-- Embedding of `MeshBuffer::upload` (src/src/render/MeshBuffer.cpp, lines
27-33): the GL buffer setup on the success path is elided; the embedding keeps
the success flag and the spdlog error line.  Empty vertex or index data logs an
error and returns false; otherwise the upload succeeds. -/
def meshBufferUpload (vertices : List ℚ) (indices : List ℕ) :
    Bool × List LogLevel :=
  if vertices.isEmpty || indices.isEmpty then
    (false, [LogLevel.error])
  else
    (true, [])

/-- Fixed per-frame spot shadow capacity, `ShadowSystem::kMaxSpotShadows`. -/
def kMaxSpotShadows : ℕ := 4

/-- Fixed per-frame point shadow capacity, `ShadowSystem::kMaxPointShadows`. -/
def kMaxPointShadows : ℕ := 2

/-- The ShadowSystem counters relevant to per-frame shadow registration:
`spotShadowCount_`, `pointShadowCount_` and `frameIndex_`. -/
structure ShadowSystemState where
  spotShadowCount : ℕ
  pointShadowCount : ℕ
  frameIndex : ℕ
deriving DecidableEq

/-- Embedding of `ShadowSystem::beginFrame`: both registration counters are
reset to zero and the frame counter is incremented. -/
def beginFrame (s : ShadowSystemState) : ShadowSystemState :=
  { spotShadowCount := 0, pointShadowCount := 0, frameIndex := s.frameIndex + 1 }

/-- Embedding of `ShadowSystem::registerSpotShadow`: past the cap the call
returns -1 and leaves the state unchanged (no error is raised or logged);
otherwise the current counter value is the assigned index and the counter is
incremented.  The spot light-view-projection matrix the source also stores is
not modelled, as no claim concerns it. -/
def registerSpotShadow (s : ShadowSystemState) : Int × ShadowSystemState :=
  if kMaxSpotShadows ≤ s.spotShadowCount then
    (-1, s)
  else
    ((s.spotShadowCount : Int), { s with spotShadowCount := s.spotShadowCount + 1 })

/-- Embedding of `ShadowSystem::registerPointShadow`: same index discipline as
the spot variant with the point-shadow cap; the six cube-face matrices are not
modelled, as no claim concerns them. -/
def registerPointShadow (s : ShadowSystemState) : Int × ShadowSystemState :=
  if kMaxPointShadows ≤ s.pointShadowCount then
    (-1, s)
  else
    ((s.pointShadowCount : Int), { s with pointShadowCount := s.pointShadowCount + 1 })

/-- Iterated spot registration within one frame: returns the list of indices
handed out, in call order, together with the final state. -/
def registerSpotShadowMany : ShadowSystemState → ℕ → List Int × ShadowSystemState
  | s, 0 => ([], s)
  | s, Nat.succ k =>
    let r := registerSpotShadow s
    let rest := registerSpotShadowMany r.2 k
    (r.1 :: rest.1, rest.2)

/-- Iterated point registration within one frame. -/
def registerPointShadowMany : ShadowSystemState → ℕ → List Int × ShadowSystemState
  | s, 0 => ([], s)
  | s, Nat.succ k =>
    let r := registerPointShadow s
    let rest := registerPointShadowMany r.2 k
    (r.1 :: rest.1, rest.2)

/-- The run of consecutive integers c, c+1, ..., c+k-1, as the indices a
first-come-first-served counter hands out. -/
def seqFrom : ℕ → ℕ → List Int
  | _, 0 => []
  | c, Nat.succ k => (c : Int) :: seqFrom (c + 1) k

/-- Tile size in pixels, `kTileSize` in src/unnamed/part_004. -/
def kTileSize : ℕ := 16

/-- Per-tile light index capacity, `kMaxLightsPerTile` in src/unnamed/part_004. -/
def kMaxLightsPerTile : ℕ := 128

/-- A view-space vector with exact rational coordinates; the culling shader's
math (clamp, subtraction, dot product, comparisons) is rational-closed. -/
structure Vec3q where
  x : ℚ
  y : ℚ
  z : ℚ
deriving DecidableEq

/-- GLSL componentwise `clamp(v, lo, hi) = min(max(v, lo), hi)`. -/
def clampVec (v lo hi : Vec3q) : Vec3q :=
  ⟨min (max v.x lo.x) hi.x, min (max v.y lo.y) hi.y, min (max v.z lo.z) hi.z⟩

/-- One light as the culling shader sees it: view-space center
(`positionRadius.xyz`) and influence radius (`positionRadius.w`). -/
structure GpuLightQ where
  center : Vec3q
  radius : ℚ
deriving DecidableEq

/-- The sphere/AABB test from the light-culling shader in
src/unnamed/part_004: closest point of the AABB to the center by clamping,
then squared distance against squared radius. -/
def sphereIntersectsAabb (l : GpuLightQ) (minV maxV : Vec3q) : Bool :=
  let closest := clampVec l.center minV maxV
  let dx := l.center.x - closest.x
  let dy := l.center.y - closest.y
  let dz := l.center.z - closest.z
  decide (dx * dx + dy * dy + dz * dz ≤ l.radius * l.radius)

/-- The light loop of the culling shader (src/unnamed/part_004, lines
1403-1421): walk the light list with running index i, appending a write
`lightIndices[offset + count] = i` and incrementing count only while
count < maxPerTile; intersecting lights past the capacity are skipped.
Returns the final count and the index-buffer writes in order. -/
def cullLightsLoop (minV maxV : Vec3q) (maxPerTile offset : ℕ) :
    List GpuLightQ → ℕ → ℕ → List (ℕ × ℕ) → ℕ × List (ℕ × ℕ)
  | [], _, count, writes => (count, writes)
  | l :: ls, i, count, writes =>
    if sphereIntersectsAabb l minV maxV then
      if count < maxPerTile then
        cullLightsLoop minV maxV maxPerTile offset ls (i + 1) (count + 1)
          (writes ++ [(offset + count, i)])
      else
        cullLightsLoop minV maxV maxPerTile offset ls (i + 1) count writes
    else
      cullLightsLoop minV maxV maxPerTile offset ls (i + 1) count writes

/-- What one invocation of the culling shader leaves behind for its tile: the
`count` written to `tiles[tileIndex].count` and the writes into the shared
light index buffer (the shader never writes `offset`). -/
structure TileCullResult where
  count : ℕ
  writes : List (ℕ × ℕ)
deriving DecidableEq

/-- Main body of the light-culling shader for one tile.  The view-space AABB
(minV, maxV) that the shader reconstructs by unprojecting the tile's corners
is taken as an input, since every claim about this pass holds for an arbitrary
AABB.  An empty depth interval (min > max) short-circuits with count = 0 and
no index writes; otherwise the light loop runs with the tile's reserved
offset. -/
def lightCullTile (depthRange : ℚ × ℚ) (minV maxV : Vec3q)
    (lights : List GpuLightQ) (maxPerTile offset : ℕ) : TileCullResult :=
  if depthRange.1 > depthRange.2 then
    ⟨0, []⟩
  else
    let r := cullLightsLoop minV maxV maxPerTile offset lights 0 0 []
    ⟨r.1, r.2⟩

/-- Initial TileMeta offsets written by `RenderEngine::ensureLightingResources`
(src/unnamed/part_004, lines 630-645): tile i gets
`offset = i * maxLightsPerTile`, count = 0. -/
def tileMetaOffsetInit (maxPerTile i : ℕ) : ℕ := i * maxPerTile

/-- The indices (in light-list order) of the lights whose spheres intersect
the tile AABB, starting the running index at i — the lights the cull loop
would keep were the capacity unbounded. -/
def intersectingIndices (minV maxV : Vec3q) : List GpuLightQ → ℕ → List ℕ
  | [], _ => []
  | l :: ls, i =>
    if sphereIntersectsAabb l minV maxV then
      i :: intersectingIndices minV maxV ls (i + 1)
    else
      intersectingIndices minV maxV ls (i + 1)

/-- The shader literal `DEPTH_EPSILON` = 0.999999 stitched into the depth
min/max compute source in src/unnamed/part_004. -/
def kDepthEpsilon : ℚ := 999999 / 1000000

/-- log2 of TILE_PIXELS: the reduction arrays hold 16 * 16 = 2^8 entries. -/
def kTilePixelsLog2 : ℕ := 8

/-- Initial shared-memory `sMin` entry of invocation i in the depth min/max
shader: the fetched depth when the pixel is in bounds and its depth is a
valid (non-background) sample, else the 1.0 initializer. -/
def sMinInit (depthAt : ℕ → ℚ) (inBounds : ℕ → Bool) (i : ℕ) : ℚ :=
  if inBounds i = true ∧ depthAt i < kDepthEpsilon then depthAt i else 1

/-- Initial shared-memory `sMax` entry of invocation i: the fetched depth for
a valid sample, else the 0.0 initializer. -/
def sMaxInit (depthAt : ℕ → ℚ) (inBounds : ℕ → Bool) (i : ℕ) : ℚ :=
  if inBounds i = true ∧ depthAt i < kDepthEpsilon then depthAt i else 0

/-- One round of the shared-memory tree reduction at the given stride:
entries below the stride combine with their partner one stride above, the
rest are unchanged. -/
def reduceStep (f : ℚ → ℚ → ℚ) (arr : ℕ → ℚ) (stride : ℕ) (i : ℕ) : ℚ :=
  if i < stride then f (arr i) (arr (i + stride)) else arr i

/-- The full strided reduction of the depth min/max shader: strides
2^(n-1), 2^(n-2), ..., 1 in that order, then read the requested entry. -/
def reduceRounds (f : ℚ → ℚ → ℚ) : ℕ → (ℕ → ℚ) → ℕ → ℚ
  | 0, arr, i => arr i
  | Nat.succ k, arr, i => reduceRounds f k (reduceStep f arr (2 ^ k)) i

/-- The per-tile minimum depth the reduction writes to `tileDepth[].x`. -/
def tileDepthMin (depthAt : ℕ → ℚ) (inBounds : ℕ → Bool) : ℚ :=
  reduceRounds min kTilePixelsLog2 (sMinInit depthAt inBounds) 0

/-- The per-tile maximum depth the reduction writes to `tileDepth[].y`. -/
def tileDepthMax (depthAt : ℕ → ℚ) (inBounds : ℕ → Bool) : ℚ :=
  reduceRounds max kTilePixelsLog2 (sMaxInit depthAt inBounds) 0

/-- The pure-logarithmic split for cascade index i of n: `minZ * ratio^p` with
`p = (i+1)/n` and the far/near quotient as base, exactly the `logSplit` local
of `ShadowSystem::updateDirectional`. -/
noncomputable def logSplitAt (nearPlane farPlane : ℝ) (n i : ℕ) : ℝ :=
  nearPlane * (farPlane / nearPlane) ^ (((i : ℝ) + 1) / (n : ℝ))

/-- The pure-uniform split for cascade index i of n: `minZ + range * p`,
exactly the `uniformSplit` local of `ShadowSystem::updateDirectional`. -/
noncomputable def uniformSplitAt (nearPlane farPlane : ℝ) (n i : ℕ) : ℝ :=
  nearPlane + (farPlane - nearPlane) * (((i : ℝ) + 1) / (n : ℝ))

/-- The cascade split depth `dirCascadeSplits_[i]` computed by
`ShadowSystem::updateDirectional` (src/src/render/ShaderProgram.hpp, lines
314-318): `split = lambda * (logSplit - uniformSplit) + uniformSplit`.  The
source's float arithmetic is modelled exactly over the reals. -/
noncomputable def cascadeSplit (nearPlane farPlane splitLambda : ℝ) (n i : ℕ) : ℝ :=
  splitLambda * (logSplitAt nearPlane farPlane n i - uniformSplitAt nearPlane farPlane n i) +
    uniformSplitAt nearPlane farPlane n i

/-- `glm::length` of a view-space position: Euclidean norm of the three
components. -/
noncomputable def glmLength (v : ℝ × ℝ × ℝ) : ℝ :=
  Real.sqrt (v.1 * v.1 + v.2.1 * v.2.1 + v.2.2 * v.2.2)

/-- A live light during `RenderEngine::updateLights`: its already-animated
world position and its influence radius. -/
structure AnimatedLight where
  worldPosition : ℝ × ℝ × ℝ
  radius : ℝ

/-- The flag accumulation of `RenderEngine::updateLights` (RenderEngine.cpp,
lines 432-474): starting from `cameraInsideLightVolume_ = false`, each
appended light sets the flag when the length of its view-space position is
strictly below its radius.  The `view` argument stands for the affine map
`p` to `vec3(view_ * vec4(p, 1))`. -/
def updateInsideFlagAux (view : ℝ × ℝ × ℝ → ℝ × ℝ × ℝ) :
    List AnimatedLight → Prop → Prop
  | [], flag => flag
  | l :: ls, flag =>
    updateInsideFlagAux view ls (flag ∨ glmLength (view l.worldPosition) < l.radius)

/-- The value of `cameraInsideLightVolume_` after `updateLights` has walked
the whole light list. -/
def cameraInsideLightVolume (view : ℝ × ℝ × ℝ → ℝ × ℝ × ℝ)
    (ls : List AnimatedLight) : Prop :=
  updateInsideFlagAux view ls False

/-- The face-culling mode of the light-volume pass. -/
inductive CullFace
  | front
  | back
deriving DecidableEq

/-- The two bounding-volume meshes of the deferred light pass. -/
inductive VolumeMesh
  | sphere
  | cone
deriving DecidableEq

open Classical in
/-- The single `glCullFace` call of `RenderEngine::renderDeferredScene`
(RenderEngine.cpp, line 738): front when the per-frame flag is set, back
otherwise. -/
noncomputable def volumeCullFace (view : ℝ × ℝ × ℝ → ℝ × ℝ × ℝ)
    (ls : List AnimatedLight) : CullFace :=
  if cameraInsideLightVolume view ls then CullFace.front else CullFace.back

/-- The light-volume draws issued by `renderDeferredScene` (RenderEngine.cpp,
lines 732-768): instanced spheres when there are point lights, instanced
cones when there are spot lights, both under the one cull face selected
before the draws. -/
noncomputable def volumePassDraws (view : ℝ × ℝ × ℝ → ℝ × ℝ × ℝ)
    (ls : List AnimatedLight) (pointLightCount spotLightCount : ℕ) :
    List (VolumeMesh × CullFace) :=
  (if 0 < pointLightCount then [(VolumeMesh.sphere, volumeCullFace view ls)] else []) ++
    (if 0 < spotLightCount then [(VolumeMesh.cone, volumeCullFace view ls)] else [])

theorem registerSpotShadowMany_indices :
    ∀ (k : ℕ) (s : ShadowSystemState), s.spotShadowCount + k ≤ kMaxSpotShadows →
      (registerSpotShadowMany s k).1 = seqFrom s.spotShadowCount k := by
  intro k
  induction k with
  | zero => intro s _; rfl
  | succ k ih =>
    intro s h
    have hlt : ¬ kMaxSpotShadows ≤ s.spotShadowCount := by omega
    simp only [registerSpotShadowMany, registerSpotShadow, if_neg hlt, seqFrom]
    exact congrArg _ (ih _ (by simp; omega))

theorem registerPointShadowMany_indices :
    ∀ (k : ℕ) (s : ShadowSystemState), s.pointShadowCount + k ≤ kMaxPointShadows →
      (registerPointShadowMany s k).1 = seqFrom s.pointShadowCount k := by
  intro k
  induction k with
  | zero => intro s _; rfl
  | succ k ih =>
    intro s h
    have hlt : ¬ kMaxPointShadows ≤ s.pointShadowCount := by omega
    simp only [registerPointShadowMany, registerPointShadow, if_neg hlt, seqFrom]
    exact congrArg _ (ih _ (by simp; omega))

/-- C3: renderer path selection is a total pure function of the
(major, minor, compute-dispatch, memory-barrier) tuple — determinism is
inherent in the functional embedding — and the path component of the code's
capability detection coincides, on every input, with the spec's decision
order: compute support first (both entry points present and version >= 4.3
selects TiledCompute), otherwise the deferred path for version >= 4.1,
otherwise SimpleForward. -/
theorem path_selection_matches_spec_order (major minor : Int)
    (hasDispatchCompute hasMemoryBarrier : Bool) :
    (detectLightingCapabilitiesTiled major minor hasDispatchCompute hasMemoryBarrier).1 =
      specPathSelection major minor hasDispatchCompute hasMemoryBarrier := by
  unfold detectLightingCapabilitiesTiled specPathSelection
  split_ifs <;> rfl

/-- C8 counterexample: on a 4.1 context with both compute entry points present,
the compute-capable engine's capability detection emits two log lines (a
warning that the compute path is unavailable plus an info naming the deferred
path), refuting "never more than one". -/
theorem capability_detection_two_log_lines :
    ((detectLightingCapabilitiesTiled 4 1 true true).2).length = 2 := by decide

/-- C8 amended: capability detection never logs zero lines; the
compute-capable engine logs exactly one line except when it falls back to the
deferred path, where it logs exactly two (a warning and an info); the
non-compute engine iteration logs exactly one line on every input. -/
theorem capability_detection_log_count (major minor : Int)
    (hasDispatchCompute hasMemoryBarrier : Bool) :
    ((detectLightingCapabilitiesTiled major minor hasDispatchCompute
        hasMemoryBarrier).2.length =
      if (detectLightingCapabilitiesTiled major minor hasDispatchCompute
          hasMemoryBarrier).1 = RendererPath.Deferred41 then 2 else 1) ∧
    (detectLightingCapabilitiesDeferred major minor).2.length = 1 := by
  unfold detectLightingCapabilitiesTiled detectLightingCapabilitiesDeferred
  constructor
  · split_ifs <;> simp_all
  · split_ifs <;> rfl

/-- C9: `MeshBuffer::upload` called with an empty vertex list or an empty
index list returns false and emits one error log line — a reported failure,
not a silent success. -/
theorem upload_empty_reports_failure (vertices : List ℚ) (indices : List ℕ)
    (h : vertices = [] ∨ indices = []) :
    (meshBufferUpload vertices indices).1 = false ∧
    (meshBufferUpload vertices indices).2 = [LogLevel.error] := by
  rcases h with h | h <;> subst h <;>
    simp [meshBufferUpload, List.isEmpty_iff]

/-- Witness for C9 at the concrete input (empty vertices, one index). -/
theorem upload_empty_reports_failure_witness :
    (([] : List ℚ) = [] ∨ ([0] : List ℕ) = []) ∧
    ((meshBufferUpload [] [0]).1 = false ∧
      (meshBufferUpload [] [0]).2 = [LogLevel.error]) :=
  ⟨Or.inl rfl, upload_empty_reports_failure [] [0] (Or.inl rfl)⟩

/-- C7: spot and point shadow indices are assigned first-come-first-served
within a frame and reset by `beginFrame`: starting from any prior state,
after `beginFrame` a run of k <= max registrations yields indices
0, 1, ..., k-1, independent of how many were registered in earlier frames. -/
theorem shadow_indices_reset_each_frame (s : ShadowSystemState) (k m : ℕ)
    (hk : k ≤ kMaxSpotShadows) (hm : m ≤ kMaxPointShadows) :
    (registerSpotShadowMany (beginFrame s) k).1 = seqFrom 0 k ∧
    (registerPointShadowMany (beginFrame s) m).1 = seqFrom 0 m := by
  constructor
  · exact registerSpotShadowMany_indices k (beginFrame s) (by simpa [beginFrame] using hk)
  · exact registerPointShadowMany_indices m (beginFrame s) (by simpa [beginFrame] using hm)

/-- Witness for C7: a frame that registered 4 spot and 2 point shadows is
followed by a frame registering 3 spot and 2 point shadows, which get indices
0, 1, 2 and 0, 1 respectively. -/
theorem shadow_indices_reset_each_frame_witness :
    (3 ≤ kMaxSpotShadows ∧ 2 ≤ kMaxPointShadows) ∧
    ((registerSpotShadowMany (beginFrame ⟨4, 2, 17⟩) 3).1 = seqFrom 0 3 ∧
      (registerPointShadowMany (beginFrame ⟨4, 2, 17⟩) 2).1 = seqFrom 0 2) :=
  ⟨⟨by decide, by decide⟩,
    shadow_indices_reset_each_frame ⟨4, 2, 17⟩ 3 2 (by decide) (by decide)⟩

theorem cullLightsLoop_count_le (minV maxV : Vec3q) (M off : ℕ) :
    ∀ (ls : List GpuLightQ) (i count : ℕ) (w : List (ℕ × ℕ)), count ≤ M →
      (cullLightsLoop minV maxV M off ls i count w).1 ≤ M := by
  intro ls
  induction ls with
  | nil => intro i count w h; simpa [cullLightsLoop] using h
  | cons l ls ih =>
    intro i count w h
    by_cases hint : sphereIntersectsAabb l minV maxV
    · by_cases hcap : count < M
      · simpa [cullLightsLoop, hint, hcap] using ih (i + 1) (count + 1) _ (by omega)
      · simpa [cullLightsLoop, hint, hcap] using ih (i + 1) count w h
    · simpa [cullLightsLoop, hint] using ih (i + 1) count w h

theorem cullLightsLoop_spec (minV maxV : Vec3q) (M off : ℕ) :
    ∀ (ls : List GpuLightQ) (i count : ℕ) (w : List (ℕ × ℕ)), count ≤ M →
      (cullLightsLoop minV maxV M off ls i count w).1 =
        min (count + (intersectingIndices minV maxV ls i).length) M ∧
      (cullLightsLoop minV maxV M off ls i count w).2.map Prod.snd =
        w.map Prod.snd ++ (intersectingIndices minV maxV ls i).take (M - count) := by
  intro ls
  induction ls with
  | nil =>
    intro i count w h
    simp [cullLightsLoop, intersectingIndices]
    omega
  | cons l ls ih =>
    intro i count w h
    by_cases hint : sphereIntersectsAabb l minV maxV
    · by_cases hcap : count < M
      · obtain ⟨ih1, ih2⟩ := ih (i + 1) (count + 1) (w ++ [(off + count, i)]) (by omega)
        constructor
        · simp only [cullLightsLoop, hint, if_true, hcap, ih1, intersectingIndices,
            List.length_cons]
          omega
        · simp only [cullLightsLoop, hint, if_true, hcap, ih2, intersectingIndices]
          have hMc : M - count = (M - (count + 1)) + 1 := by omega
          rw [hMc, List.take_succ_cons]
          simp
      · have hcM : count = M := by omega
        obtain ⟨ih1, ih2⟩ := ih (i + 1) count w h
        constructor
        · simp only [cullLightsLoop, hint, if_true, hcap, if_false, ih1,
            intersectingIndices, List.length_cons]
          omega
        · simp only [cullLightsLoop, hint, if_true, hcap, if_false, ih2,
            intersectingIndices]
          rw [show M - count = 0 by omega]
          simp
    · obtain ⟨ih1, ih2⟩ := ih (i + 1) count w h
      constructor
      · simp [cullLightsLoop, hint, ih1, intersectingIndices]
      · simp [cullLightsLoop, hint, ih2, intersectingIndices]

/-- C4: with the offsets written at resource creation
(`offset = i * maxLightsPerTile`) and counts produced by the culling shader,
every tile's count is at most maxLightsPerTile, so the `[offset,
offset + count)` ranges of two distinct tiles are disjoint: each tile stays
inside its reserved maxLightsPerTile-slot slice of the index buffer. -/
theorem tile_partition_invariant (M : ℕ) (depthRanges : ℕ → ℚ × ℚ)
    (minVs maxVs : ℕ → Vec3q) (lights : ℕ → List GpuLightQ) (t₁ t₂ : ℕ)
    (hne : t₁ ≠ t₂) :
    (∀ t, tileMetaOffsetInit M t = t * M) ∧
    (∀ t, (lightCullTile (depthRanges t) (minVs t) (maxVs t) (lights t) M
        (tileMetaOffsetInit M t)).count ≤ M) ∧
    (∀ k,
      tileMetaOffsetInit M t₁ ≤ k ∧
        k < tileMetaOffsetInit M t₁ +
          (lightCullTile (depthRanges t₁) (minVs t₁) (maxVs t₁) (lights t₁) M
            (tileMetaOffsetInit M t₁)).count →
      ¬ (tileMetaOffsetInit M t₂ ≤ k ∧
        k < tileMetaOffsetInit M t₂ +
          (lightCullTile (depthRanges t₂) (minVs t₂) (maxVs t₂) (lights t₂) M
            (tileMetaOffsetInit M t₂)).count)) := by
  have hcount : ∀ t, (lightCullTile (depthRanges t) (minVs t) (maxVs t)
      (lights t) M (tileMetaOffsetInit M t)).count ≤ M := by
    intro t
    unfold lightCullTile
    split_ifs
    · exact Nat.zero_le M
    · exact cullLightsLoop_count_le (minVs t) (maxVs t) M _ (lights t) 0 0 []
        (Nat.zero_le M)
  refine ⟨fun _ => rfl, hcount, ?_⟩
  intro k ⟨h1, h2⟩ ⟨h3, h4⟩
  have key : ∀ a b : ℕ, a < b →
      ∀ ca : ℕ, ca ≤ M → a * M ≤ k → k < a * M + ca → b * M ≤ k → False := by
    intro a b hab ca hca hak hk hbk
    have hstep : a * M + M ≤ b * M := by
      calc a * M + M = (a + 1) * M := by ring
        _ ≤ b * M := Nat.mul_le_mul_right M hab
    omega
  rcases Nat.lt_or_ge t₁ t₂ with hlt | hge
  · exact key t₁ t₂ hlt _ (hcount t₁) h1 h2 h3
  · have hlt : t₂ < t₁ := lt_of_le_of_ne hge (Ne.symm hne)
    exact key t₂ t₁ hlt _ (hcount t₂) h3 h4 h1

/-- Witness for C4 at maxLightsPerTile = 128, two concrete distinct tiles and
concrete per-tile inputs. -/
theorem tile_partition_invariant_witness :
    ((0 : ℕ) ≠ 1) ∧
    ((∀ t, tileMetaOffsetInit kMaxLightsPerTile t = t * kMaxLightsPerTile) ∧
    (∀ t, (lightCullTile ((0 : ℚ), (1 : ℚ)) ⟨0, 0, 0⟩ ⟨1, 1, 1⟩ []
        kMaxLightsPerTile (tileMetaOffsetInit kMaxLightsPerTile t)).count ≤
      kMaxLightsPerTile) ∧
    (∀ k,
      tileMetaOffsetInit kMaxLightsPerTile 0 ≤ k ∧
        k < tileMetaOffsetInit kMaxLightsPerTile 0 +
          (lightCullTile ((0 : ℚ), (1 : ℚ)) ⟨0, 0, 0⟩ ⟨1, 1, 1⟩ []
            kMaxLightsPerTile (tileMetaOffsetInit kMaxLightsPerTile 0)).count →
      ¬ (tileMetaOffsetInit kMaxLightsPerTile 1 ≤ k ∧
        k < tileMetaOffsetInit kMaxLightsPerTile 1 +
          (lightCullTile ((0 : ℚ), (1 : ℚ)) ⟨0, 0, 0⟩ ⟨1, 1, 1⟩ []
            kMaxLightsPerTile (tileMetaOffsetInit kMaxLightsPerTile 1)).count))) :=
  ⟨by decide,
    tile_partition_invariant kMaxLightsPerTile (fun _ => ((0 : ℚ), (1 : ℚ)))
      (fun _ => ⟨0, 0, 0⟩) (fun _ => ⟨1, 1, 1⟩) (fun _ => []) 0 1 (by decide)⟩

theorem reduceRounds_const (f : ℚ → ℚ → ℚ) (c : ℚ) (hc : f c c = c) :
    ∀ (n : ℕ) (arr : ℕ → ℚ), (∀ i, i < 2 ^ n → arr i = c) →
      reduceRounds f n arr 0 = c := by
  intro n
  induction n with
  | zero =>
    intro arr h
    simpa [reduceRounds] using h 0 (by norm_num)
  | succ k ih =>
    intro arr h
    have h2 : (2 : ℕ) ^ (k + 1) = 2 ^ k + 2 ^ k := by
      rw [pow_succ]; ring
    show reduceRounds f k (reduceStep f arr (2 ^ k)) 0 = c
    apply ih
    intro i hi
    unfold reduceStep
    rw [if_pos hi, h i (by omega), h (i + 2 ^ k) (by omega), hc]

/-- C5: when a tile has zero valid (non-background) depth samples, every
shared-memory entry keeps its initializer, so the reduction yields
min = 1.0 and max = 0.0 — an empty interval with min > max — and the
light-culling pass, seeing min > max, records count = 0 for the tile and
writes no light indices. -/
theorem empty_tile_interval_culls_nothing (depthAt : ℕ → ℚ) (inBounds : ℕ → Bool)
    (hnone : ∀ i, i < 2 ^ kTilePixelsLog2 →
      ¬ (inBounds i = true ∧ depthAt i < kDepthEpsilon))
    (minV maxV : Vec3q) (lights : List GpuLightQ) (M off : ℕ) :
    tileDepthMin depthAt inBounds = 1 ∧
    tileDepthMax depthAt inBounds = 0 ∧
    tileDepthMax depthAt inBounds < tileDepthMin depthAt inBounds ∧
    lightCullTile (tileDepthMin depthAt inBounds, tileDepthMax depthAt inBounds)
      minV maxV lights M off = ⟨0, []⟩ := by
  have hmin : tileDepthMin depthAt inBounds = 1 := by
    apply reduceRounds_const min 1 (min_self 1)
    intro i hi
    simp [sMinInit, hnone i hi]
  have hmax : tileDepthMax depthAt inBounds = 0 := by
    apply reduceRounds_const max 0 (max_self 0)
    intro i hi
    simp [sMaxInit, hnone i hi]
  refine ⟨hmin, hmax, ?_, ?_⟩
  · rw [hmin, hmax]; norm_num
  · rw [hmin, hmax]
    unfold lightCullTile
    norm_num

/-- Witness for C5: a tile fully outside the screen (no pixel in bounds). -/
theorem empty_tile_interval_culls_nothing_witness :
    (∀ i, i < 2 ^ kTilePixelsLog2 →
      ¬ ((fun (_ : ℕ) => false) i = true ∧ (fun (_ : ℕ) => (1 : ℚ)) i < kDepthEpsilon)) ∧
    (tileDepthMin (fun _ => 1) (fun _ => false) = 1 ∧
      tileDepthMax (fun _ => 1) (fun _ => false) = 0 ∧
      tileDepthMax (fun _ => 1) (fun _ => false) <
        tileDepthMin (fun _ => 1) (fun _ => false) ∧
      lightCullTile (tileDepthMin (fun _ => 1) (fun _ => false),
          tileDepthMax (fun _ => 1) (fun _ => false))
        ⟨0, 0, 0⟩ ⟨1, 1, 1⟩ [⟨⟨0, 0, 0⟩, 5⟩] kMaxLightsPerTile 0 = ⟨0, []⟩) := by
  have hnone : ∀ i, i < 2 ^ kTilePixelsLog2 →
      ¬ ((fun (_ : ℕ) => false) i = true ∧ (fun (_ : ℕ) => (1 : ℚ)) i < kDepthEpsilon) := by
    intro i _ h
    exact Bool.false_ne_true h.1
  exact ⟨hnone, empty_tile_interval_culls_nothing (fun _ => 1) (fun _ => false)
    hnone ⟨0, 0, 0⟩ ⟨1, 1, 1⟩ [⟨⟨0, 0, 0⟩, 5⟩] kMaxLightsPerTile 0⟩

/-- C6: per-frame bounded overflow is silent truncation keeping the
first-registered entries.  For a tile with a non-empty depth interval, the
cull loop's final count is the number of intersecting lights capped at
maxLightsPerTile and the written indices are exactly the first
maxLightsPerTile intersecting lights in list order; and past the per-kind
caps (4 spot, 2 point), `registerSpotShadow` / `registerPointShadow` return
-1 with the state unchanged — no error is raised or logged. -/
theorem overflow_silent_truncation (depthRange : ℚ × ℚ) (minV maxV : Vec3q)
    (lights : List GpuLightQ) (M off : ℕ) (hdr : ¬ depthRange.1 > depthRange.2)
    (s t : ShadowSystemState) (hs : kMaxSpotShadows ≤ s.spotShadowCount)
    (ht : kMaxPointShadows ≤ t.pointShadowCount) :
    (lightCullTile depthRange minV maxV lights M off).count =
      min (intersectingIndices minV maxV lights 0).length M ∧
    (lightCullTile depthRange minV maxV lights M off).writes.map Prod.snd =
      (intersectingIndices minV maxV lights 0).take M ∧
    registerSpotShadow s = (-1, s) ∧
    registerPointShadow t = (-1, t) := by
  obtain ⟨h1, h2⟩ := cullLightsLoop_spec minV maxV M off lights 0 0 []
    (Nat.zero_le M)
  refine ⟨?_, ?_, ?_, ?_⟩
  · simpa [lightCullTile, hdr] using h1
  · simpa [lightCullTile, hdr] using h2
  · simp [registerSpotShadow, hs]
  · simp [registerPointShadow, ht]

/-- Witness for C6: a valid depth interval with three lights intersecting a
capacity-2 tile, and full shadow registries. -/
theorem overflow_silent_truncation_witness :
    (¬ ((0 : ℚ), (1 : ℚ)).1 > ((0 : ℚ), (1 : ℚ)).2 ∧
      kMaxSpotShadows ≤ (ShadowSystemState.mk 4 0 0).spotShadowCount ∧
      kMaxPointShadows ≤ (ShadowSystemState.mk 0 2 0).pointShadowCount) ∧
    ((lightCullTile ((0 : ℚ), (1 : ℚ)) ⟨0, 0, 0⟩ ⟨1, 1, 1⟩
        [⟨⟨0, 0, 0⟩, 1⟩, ⟨⟨0, 0, 0⟩, 1⟩, ⟨⟨0, 0, 0⟩, 1⟩] 2 0).count =
      min (intersectingIndices ⟨0, 0, 0⟩ ⟨1, 1, 1⟩
        [⟨⟨0, 0, 0⟩, 1⟩, ⟨⟨0, 0, 0⟩, 1⟩, ⟨⟨0, 0, 0⟩, 1⟩] 0).length 2 ∧
    (lightCullTile ((0 : ℚ), (1 : ℚ)) ⟨0, 0, 0⟩ ⟨1, 1, 1⟩
        [⟨⟨0, 0, 0⟩, 1⟩, ⟨⟨0, 0, 0⟩, 1⟩, ⟨⟨0, 0, 0⟩, 1⟩] 2 0).writes.map Prod.snd =
      (intersectingIndices ⟨0, 0, 0⟩ ⟨1, 1, 1⟩
        [⟨⟨0, 0, 0⟩, 1⟩, ⟨⟨0, 0, 0⟩, 1⟩, ⟨⟨0, 0, 0⟩, 1⟩] 0).take 2 ∧
    registerSpotShadow ⟨4, 0, 0⟩ = (-1, ⟨4, 0, 0⟩) ∧
    registerPointShadow ⟨0, 2, 0⟩ = (-1, ⟨0, 2, 0⟩)) :=
  ⟨⟨by norm_num, by decide, by decide⟩,
    overflow_silent_truncation ((0 : ℚ), (1 : ℚ)) ⟨0, 0, 0⟩ ⟨1, 1, 1⟩
      [⟨⟨0, 0, 0⟩, 1⟩, ⟨⟨0, 0, 0⟩, 1⟩, ⟨⟨0, 0, 0⟩, 1⟩] 2 0 (by norm_num)
      ⟨4, 0, 0⟩ ⟨0, 2, 0⟩ (by decide) (by decide)⟩

theorem logSplit_le_uniformSplit (nearPlane farPlane : ℝ) (n i : ℕ)
    (hnear : 0 < nearPlane) (hfar : nearPlane < farPlane) (hn0 : (0 : ℝ) < (n : ℝ))
    (hi : i < n) :
    logSplitAt nearPlane farPlane n i ≤ uniformSplitAt nearPlane farPlane n i := by
  have hnearne : nearPlane ≠ 0 := ne_of_gt hnear
  have hr1 : 1 < farPlane / nearPlane := (one_lt_div hnear).2 hfar
  have hr0 : (0 : ℝ) ≤ farPlane / nearPlane := le_of_lt (lt_trans one_pos hr1)
  unfold logSplitAt uniformSplitAt
  set p : ℝ := ((i : ℝ) + 1) / (n : ℝ) with hp
  have hp0 : 0 ≤ p := by positivity
  have hp1 : p ≤ 1 := by
    rw [hp, div_le_one hn0]
    exact_mod_cast Nat.succ_le_of_lt hi
  have hgm := @Real.geom_mean_le_arith_mean2_weighted p (1 - p)
    (farPlane / nearPlane) 1 hp0 (by linarith) hr0 zero_le_one (by ring)
  rw [Real.one_rpow, mul_one, mul_one] at hgm
  have h2 := mul_le_mul_of_nonneg_left hgm (le_of_lt hnear)
  have h4 : nearPlane * (p * (farPlane / nearPlane) + (1 - p)) =
      nearPlane + (farPlane - nearPlane) * p := by
    field_simp
    ring
  rw [h4] at h2
  exact h2

/-- C1: for every cascade count n in 1..4, camera planes 0 < near < far and
splitLambda in [0,1], the split depths of `ShadowSystem::updateDirectional`
are strictly increasing in the cascade index, the last split equals the far
plane, and every split lies between the pure-logarithmic and the pure-uniform
value for its index. -/
theorem cascade_splits_monotone_bounded (nearPlane farPlane splitLambda : ℝ)
    (n : ℕ) (hnear : 0 < nearPlane) (hfar : nearPlane < farPlane)
    (hl0 : 0 ≤ splitLambda) (hl1 : splitLambda ≤ 1) (hn1 : 1 ≤ n) (_hn4 : n ≤ 4) :
    (∀ i j : ℕ, i < j → j < n →
      cascadeSplit nearPlane farPlane splitLambda n i <
        cascadeSplit nearPlane farPlane splitLambda n j) ∧
    cascadeSplit nearPlane farPlane splitLambda n (n - 1) = farPlane ∧
    (∀ i : ℕ, i < n →
      logSplitAt nearPlane farPlane n i ≤
        cascadeSplit nearPlane farPlane splitLambda n i ∧
      cascadeSplit nearPlane farPlane splitLambda n i ≤
        uniformSplitAt nearPlane farPlane n i) := by
  have hn0 : (0 : ℝ) < (n : ℝ) := by exact_mod_cast Nat.lt_of_lt_of_le Nat.zero_lt_one hn1
  have hne : (n : ℝ) ≠ 0 := ne_of_gt hn0
  have hnearne : nearPlane ≠ 0 := ne_of_gt hnear
  have hr1 : 1 < farPlane / nearPlane := (one_lt_div hnear).2 hfar
  refine ⟨?_, ?_, ?_⟩
  · intro i j hij hjn
    have hnum : (i : ℝ) + 1 < (j : ℝ) + 1 := by
      have : (i : ℝ) < (j : ℝ) := by exact_mod_cast hij
      linarith
    have hpij : ((i : ℝ) + 1) / (n : ℝ) < ((j : ℝ) + 1) / (n : ℝ) := by gcongr
    have hlog : logSplitAt nearPlane farPlane n i < logSplitAt nearPlane farPlane n j := by
      unfold logSplitAt
      exact mul_lt_mul_of_pos_left ((Real.rpow_lt_rpow_left_iff hr1).2 hpij) hnear
    have huni : uniformSplitAt nearPlane farPlane n i <
        uniformSplitAt nearPlane farPlane n j := by
      unfold uniformSplitAt
      have := mul_lt_mul_of_pos_left hpij (by linarith : (0 : ℝ) < farPlane - nearPlane)
      linarith
    unfold cascadeSplit
    rcases eq_or_lt_of_le hl1 with heq | hlt1
    · rw [heq]
      nlinarith [hlog, huni]
    · nlinarith [hlog, huni,
        mul_nonneg hl0 (sub_nonneg.2 hlog.le),
        mul_pos (sub_pos.2 hlt1) (sub_pos.2 huni)]
  · unfold cascadeSplit logSplitAt uniformSplitAt
    have hpone : (((n - 1 : ℕ) : ℝ) + 1) / (n : ℝ) = 1 := by
      rw [Nat.cast_sub hn1]
      push_cast
      field_simp
    rw [hpone, Real.rpow_one]
    field_simp
  · intro i hi
    have hLU := logSplit_le_uniformSplit nearPlane farPlane n i hnear hfar hn0 hi
    constructor
    · unfold cascadeSplit
      nlinarith [hLU, mul_nonneg (by linarith : (0 : ℝ) ≤ 1 - splitLambda)
        (sub_nonneg.2 hLU)]
    · unfold cascadeSplit
      nlinarith [hLU, mul_nonneg hl0 (sub_nonneg.2 hLU)]

/-- Witness for C1 at the spec's scenario: 3 cascades, near = 1, far = 100,
splitLambda = 0.6, giving split 0 < split 1 < split 2 = 100 with each split
between its pure-logarithmic and pure-uniform value. -/
theorem cascade_splits_monotone_bounded_witness :
    ((0 : ℝ) < 1 ∧ (1 : ℝ) < 100 ∧ (0 : ℝ) ≤ 6 / 10 ∧ (6 / 10 : ℝ) ≤ 1 ∧
      (1 : ℕ) ≤ 3 ∧ (3 : ℕ) ≤ 4) ∧
    ((∀ i j : ℕ, i < j → j < 3 →
      cascadeSplit 1 100 (6 / 10) 3 i < cascadeSplit 1 100 (6 / 10) 3 j) ∧
    cascadeSplit 1 100 (6 / 10) 3 (3 - 1) = 100 ∧
    (∀ i : ℕ, i < 3 →
      logSplitAt 1 100 3 i ≤ cascadeSplit 1 100 (6 / 10) 3 i ∧
      cascadeSplit 1 100 (6 / 10) 3 i ≤ uniformSplitAt 1 100 3 i)) :=
  ⟨⟨by norm_num, by norm_num, by norm_num, by norm_num, by norm_num, by norm_num⟩,
    cascade_splits_monotone_bounded 1 100 (6 / 10) 3 (by norm_num) (by norm_num)
      (by norm_num) (by norm_num) (by norm_num) (by norm_num)⟩

theorem updateInsideFlagAux_iff (view : ℝ × ℝ × ℝ → ℝ × ℝ × ℝ) :
    ∀ (ls : List AnimatedLight) (flag : Prop),
      updateInsideFlagAux view ls flag ↔
        flag ∨ ∃ l ∈ ls, glmLength (view l.worldPosition) < l.radius := by
  intro ls
  induction ls with
  | nil => intro flag; simp [updateInsideFlagAux]
  | cons l ls ih =>
    intro flag
    simp only [updateInsideFlagAux, ih, List.mem_cons]
    constructor
    · rintro ((h | h) | ⟨a, ha, hr⟩)
      · exact Or.inl h
      · exact Or.inr ⟨l, Or.inl rfl, h⟩
      · exact Or.inr ⟨a, Or.inr ha, hr⟩
    · rintro (h | ⟨a, (rfl | ha), hr⟩)
      · exact Or.inl (Or.inl h)
      · exact Or.inl (Or.inr hr)
      · exact Or.inr ⟨a, ha, hr⟩

theorem cameraInsideLightVolume_iff (view : ℝ × ℝ × ℝ → ℝ × ℝ × ℝ)
    (ls : List AnimatedLight) :
    cameraInsideLightVolume view ls ↔
      ∃ l ∈ ls, glmLength (view l.worldPosition) < l.radius := by
  unfold cameraInsideLightVolume
  rw [updateInsideFlagAux_iff]
  simp

/-- C2 counterexample: with the identity view and one light at view-space
position (3, 4, 0) of radius 5, the camera's distance to the light center is
exactly the radius, yet `updateLights` leaves `cameraInsideLightVolume_`
unset — the boundary is treated as outside, not inside. -/
theorem boundary_distance_not_inside :
    glmLength ((fun v => v) ((3 : ℝ), 4, 0)) = (AnimatedLight.mk ((3 : ℝ), 4, 0) 5).radius ∧
    ¬ cameraInsideLightVolume (fun v => v) [AnimatedLight.mk ((3 : ℝ), 4, 0) 5] := by
  have h5 : glmLength ((fun v => v) ((3 : ℝ), 4, 0)) = 5 := by
    show Real.sqrt (3 * 3 + 4 * 4 + 0 * 0) = 5
    rw [show (3 : ℝ) * 3 + 4 * 4 + 0 * 0 = 5 ^ 2 by norm_num]
    exact Real.sqrt_sq (by norm_num)
  refine ⟨h5, ?_⟩
  rw [cameraInsideLightVolume_iff]
  rintro ⟨l, hl, hlt⟩
  simp only [List.mem_singleton] at hl
  subst hl
  rw [h5] at hlt
  exact lt_irrefl _ hlt

/-- C2 amended: the cull-flip test of `updateLights` is strict
(`length(viewPos) < radius`), so a camera whose view-space distance to every
light's center equals that light's radius is treated as outside the light
volume, and the light-volume pass keeps back-face culling. -/
theorem boundary_distance_treated_outside (view : ℝ × ℝ × ℝ → ℝ × ℝ × ℝ)
    (ls : List AnimatedLight)
    (h : ∀ l ∈ ls, glmLength (view l.worldPosition) = l.radius) :
    ¬ cameraInsideLightVolume view ls ∧
    volumeCullFace view ls = CullFace.back := by
  have hnot : ¬ cameraInsideLightVolume view ls := by
    rw [cameraInsideLightVolume_iff]
    rintro ⟨l, hl, hlt⟩
    rw [h l hl] at hlt
    exact lt_irrefl _ hlt
  refine ⟨hnot, ?_⟩
  unfold volumeCullFace
  exact if_neg hnot

/-- Witness for the amended C2 at the identity view and one light at
view-space distance exactly its radius. -/
theorem boundary_distance_treated_outside_witness :
    (∀ l ∈ [AnimatedLight.mk ((3 : ℝ), 4, 0) 5],
      glmLength ((fun v => v) l.worldPosition) = l.radius) ∧
    (¬ cameraInsideLightVolume (fun v => v) [AnimatedLight.mk ((3 : ℝ), 4, 0) 5] ∧
      volumeCullFace (fun v => v) [AnimatedLight.mk ((3 : ℝ), 4, 0) 5] =
        CullFace.back) := by
  have hh : ∀ l ∈ [AnimatedLight.mk ((3 : ℝ), 4, 0) 5],
      glmLength ((fun v => v) l.worldPosition) = l.radius := by
    intro l hl
    simp only [List.mem_singleton] at hl
    subst hl
    show Real.sqrt (3 * 3 + 4 * 4 + 0 * 0) = 5
    rw [show (3 : ℝ) * 3 + 4 * 4 + 0 * 0 = 5 ^ 2 by norm_num]
    exact Real.sqrt_sq (by norm_num)
  exact ⟨hh, boundary_distance_treated_outside (fun v => v) _ hh⟩

/-- C10: the camera-inside decision is one per-frame flag, not a per-light
test: if at least one live light's view-space center distance is strictly
below its radius, every volume draw of the frame (sphere and cone alike)
uses front-face culling; when no light contains the camera, every volume
draw uses back-face culling. -/
theorem light_volume_cull_single_flag (view : ℝ × ℝ × ℝ → ℝ × ℝ × ℝ)
    (ls : List AnimatedLight) (pointLightCount spotLightCount : ℕ) :
    ((∃ l ∈ ls, glmLength (view l.worldPosition) < l.radius) →
      ∀ d ∈ volumePassDraws view ls pointLightCount spotLightCount,
        d.2 = CullFace.front) ∧
    ((∀ l ∈ ls, ¬ glmLength (view l.worldPosition) < l.radius) →
      ∀ d ∈ volumePassDraws view ls pointLightCount spotLightCount,
        d.2 = CullFace.back) := by
  have hmem : ∀ d ∈ volumePassDraws view ls pointLightCount spotLightCount,
      d.2 = volumeCullFace view ls := by
    intro d hd
    unfold volumePassDraws at hd
    rcases List.mem_append.1 hd with h | h <;> split_ifs at h <;> simp_all
  constructor
  · intro h d hd
    have hin : cameraInsideLightVolume view ls :=
      (cameraInsideLightVolume_iff view ls).2 h
    have hcf : volumeCullFace view ls = CullFace.front := by
      unfold volumeCullFace
      exact if_pos hin
    rw [hmem d hd, hcf]
  · intro h d hd
    have hout : ¬ cameraInsideLightVolume view ls := by
      rw [cameraInsideLightVolume_iff]
      rintro ⟨l, hl, hlt⟩
      exact h l hl hlt
    have hcf : volumeCullFace view ls = CullFace.back := by
      unfold volumeCullFace
      exact if_neg hout
    rw [hmem d hd, hcf]

/-- Witness for C10: one light containing the camera forces front-face
culling on both the sphere and the cone draw. -/
theorem light_volume_cull_single_flag_witness :
    (∃ l ∈ [AnimatedLight.mk ((0 : ℝ), 0, 0) 1],
      glmLength ((fun v => v) l.worldPosition) < l.radius) ∧
    ∀ d ∈ volumePassDraws (fun v => v) [AnimatedLight.mk ((0 : ℝ), 0, 0) 1] 1 1,
      d.2 = CullFace.front := by
  have hx : ∃ l ∈ [AnimatedLight.mk ((0 : ℝ), 0, 0) 1],
      glmLength ((fun v => v) l.worldPosition) < l.radius := by
    refine ⟨AnimatedLight.mk ((0 : ℝ), 0, 0) 1, by simp, ?_⟩
    show Real.sqrt (0 * 0 + 0 * 0 + 0 * 0) < 1
    rw [show (0 : ℝ) * 0 + 0 * 0 + 0 * 0 = 0 by norm_num, Real.sqrt_zero]
    norm_num
  exact ⟨hx, (light_volume_cull_single_flag (fun v => v) _ 1 1).1 hx⟩

end AlKanzar
